import Mathlib

/-!
Shallow embedding of `bun-sqlite-cache` (src/index.ts).

The SQLite `cache` table is modelled as an association list of rows; each
prepared statement of `initSqliteCache` becomes a list operation with the
same WHERE / ORDER BY semantics (strict comparisons, NULL handling).  The
v8 `serialize`/`deserialize` pair and bun's `gzipSync`/`gunzipSync` are out
of scope for the core (the spec treats them as pluggable capabilities), so
they are parameters packaged with their inverse laws.  Timestamps are `Nat`
milliseconds, `Date.now()` is passed in explicitly.  A store-level failure
of the upsert (the JS `try`/`catch` in `set`) and of a sweep tick is
modelled by an explicit `storeFail` flag.
-/

namespace BunSqliteCacheModel

/-- A JavaScript primitive value, as far as configuration validation can observe it. -/
inductive JSVal where
  | vStr (s : String)
  | vNum (n : Int)
  | vBool (b : Bool)
deriving DecidableEq, Repr

/-- JavaScript truthiness of the values above (empty string, 0 and false are falsy). -/
def JSVal.truthy : JSVal → Bool
  | .vStr s => s != ""
  | .vNum n => n != 0
  | .vBool b => b

/-- The JS `typeof v === "string"` test. -/
def JSVal.isString : JSVal → Bool
  | .vStr _ => true
  | _ => false

/-- The JS `typeof v === "number"` test. -/
def JSVal.isNumber : JSVal → Bool
  | .vNum _ => true
  | _ => false

/-- The JS `typeof v === "boolean"` test. -/
def JSVal.isBool : JSVal → Bool
  | .vBool _ => true
  | _ => false

/-- The loosely-typed options bag passed to the constructor; an absent field is `none`. -/
structure RawConfig where
  database : Option JSVal
  defaultTtlMs : Option JSVal
  maxItems : Option JSVal
  compress : Option JSVal
deriving DecidableEq, Repr

/-- The error taxonomy of the cache: `InvalidConfiguration` (thrown by `parseConfig`,
carrying its message) and `CacheClosed` (thrown by operations on a closed cache). -/
inductive CacheError where
  | invalidConfig (msg : String)
  | cacheClosed
deriving DecidableEq, Repr

/-- `parseConfig` (src/index.ts lines 62-87): each field is checked only when it is
truthy, and only for its `typeof`; all offending field names are collected and
joined with commas into a single error message.  On success `database` falls back
to `":memory:"` via `??` and the other fields pass through unchanged. -/
def parseConfig (c : RawConfig) : Except CacheError RawConfig :=
  let errs : List String :=
    (if c.database.any (fun v => v.truthy && ! v.isString) then ["\x27database\x27"] else []) ++
    (if c.defaultTtlMs.any (fun v => v.truthy && ! v.isNumber) then ["\x27defaultTtlMs\x27"] else []) ++
    (if c.maxItems.any (fun v => v.truthy && ! v.isNumber) then ["\x27maxItems\x27"] else []) ++
    (if c.compress.any (fun v => v.truthy && ! v.isBool) then ["\x27compress\x27"] else [])
  if errs.length > 0 then
    .error (.invalidConfig ("Invalid " ++ String.intercalate "," errs ++ " configuration"))
  else
    .ok { c with database := some (c.database.getD (.vStr ":memory:")) }

/-- The well-typed effective configuration held by an open cache instance
(`BunSQLiteCacheConfiguration` after validation). -/
structure Config where
  database : String
  defaultTtlMs : Option Nat
  maxItems : Option Nat
  compress : Option Bool
deriving DecidableEq, Repr

/-- One row of the SQLite `cache` table: `value BLOB, expires INT (nullable),
lastAccess INT, compressed BOOLEAN`. -/
structure CacheEntry where
  value : List Nat
  expires : Option Nat
  lastAccess : Nat
  compressed : Bool
deriving DecidableEq, Repr

/-- The `cache` table: rows indexed by `key` (the PRIMARY KEY keeps keys unique). -/
abbrev Table := List (String × CacheEntry)

/-- Row lookup by primary key. -/
def findRow (t : Table) (k : String) : Option CacheEntry :=
  (t.find? (fun p => p.1 == k)).map Prod.snd

/-- The SQL filter `expires > $now OR expires IS NULL` of `getStatement`. -/
def liveAt (e : CacheEntry) (tNow : Nat) : Bool :=
  match e.expires with
  | none => true
  | some x => decide (tNow < x)

/-- The SQL filter `expires < $now` of `cleanupExpiredStatement`
(a NULL `expires` never satisfies it). -/
def expiredAt (e : CacheEntry) (tNow : Nat) : Bool :=
  match e.expires with
  | none => false
  | some x => decide (x < tNow)

/-- The effect of `UPDATE cache SET lastAccess = $now WHERE key = $key ...`
on the matched row. -/
def touchRow (t : Table) (k : String) (tNow : Nat) : Table :=
  t.map (fun p => if p.1 == k then (p.1, { p.2 with lastAccess := tNow }) else p)

/-- `getStatement`: `UPDATE OR IGNORE cache SET lastAccess = $now WHERE key = $key
AND (expires > $now OR expires IS NULL) RETURNING value, compressed` — an atomic
touch-and-fetch that leaves the table untouched when no row matches. -/
def touchAndFetch (t : Table) (k : String) (tNow : Nat) : Option (List Nat × Bool) × Table :=
  match findRow t k with
  | none => (none, t)
  | some e =>
    if liveAt e tNow then
      (some (e.value, e.compressed), touchRow t k tNow)
    else
      (none, t)

/-- `setStatement`: `INSERT OR REPLACE INTO cache (key, value, expires, lastAccess,
compressed) VALUES (...)` — SQLite REPLACE deletes the conflicting row and inserts
the new one. -/
def upsert (t : Table) (k : String) (v : List Nat) (exp : Option Nat) (tNow : Nat)
    (comp : Bool) : Table :=
  t.filter (fun p => p.1 != k) ++ [(k, ⟨v, exp, tNow, comp⟩)]

/-- `deleteStatement`: `DELETE FROM cache WHERE key = $key`. -/
def deleteRow (t : Table) (k : String) : Table :=
  t.filter (fun p => p.1 != k)

/-- `clearStatement`: `DELETE FROM cache`. -/
def clearAll (_t : Table) : Table :=
  ([] : Table)

/-- `cleanupExpiredStatement`: `DELETE FROM cache WHERE expires < $now`. -/
def deleteExpired (t : Table) (tNow : Nat) : Table :=
  t.filter (fun p => ! expiredAt p.2 tNow)

/-- The `ORDER BY lastAccess DESC` ordering of `cleanupLruStatement`:
`a` comes before `b` when `a` was accessed at least as recently. -/
def moreRecent (a b : String × CacheEntry) : Prop :=
  b.2.lastAccess ≤ a.2.lastAccess

instance : DecidableRel moreRecent :=
  fun a b => inferInstanceAs (Decidable (b.2.lastAccess ≤ a.2.lastAccess))

instance : IsTotal (String × CacheEntry) moreRecent :=
  ⟨fun a b => le_total b.2.lastAccess a.2.lastAccess⟩

instance : IsTrans (String × CacheEntry) moreRecent :=
  ⟨fun _ _ _ h1 h2 => le_trans h2 h1⟩

/-- The table ordered by `lastAccess DESC` (most recently accessed first). -/
def sortByRecency (t : Table) : Table :=
  List.insertionSort moreRecent t

/-- `cleanupLruStatement`: `WITH lru AS (SELECT key FROM cache ORDER BY lastAccess
DESC LIMIT -1 OFFSET $maxItems) DELETE FROM cache WHERE key IN lru` — every key
past the first `maxItems` in recency order is deleted. -/
def deleteExcessByRecency (t : Table) (maxItems : Nat) : Table :=
  let lru := ((sortByRecency t).drop maxItems).map Prod.fst
  t.filter (fun p => ! lru.contains p.1)

/-- The mutable state of a `BunSQLiteCache` instance: its validated configuration,
the SQLite table, and the `isClosed` flag. -/
structure CacheState where
  config : Config
  table : Table
  isClosed : Bool
deriving DecidableEq, Repr

/-- The v8 `serialize`/`deserialize` pair (an external capability per the spec):
any codec whose deserialize inverts serialize. -/
structure Codec (α : Type) where
  serialize : α → List Nat
  deserialize : List Nat → α
  roundtrip : ∀ a, deserialize (serialize a) = a

/-- bun's `gzipSync`/`gunzipSync` pair: any lossless compressor. -/
structure Gzip where
  gzipSync : List Nat → List Nat
  gunzipSync : List Nat → List Nat
  roundtrip : ∀ l, gunzipSync (gzipSync l) = l

/-- `COMPRESSION_MIN_LENGTH` (src/index.ts line 5). -/
def COMPRESSION_MIN_LENGTH : Nat := 1024

/-- The `ValueWithMeta` shape returned by `get(key, true)`. -/
structure ValueWithMeta (α : Type) where
  value : α
  key : String
  compressed : Bool
deriving Repr

/-- `BunSQLiteCache.get` (src/index.ts lines 112-134): throws `CacheClosed` when
closed; otherwise runs the touch-and-fetch, gunzips exactly when the stored
`compressed` flag is set, deserializes, and returns the value with its metadata
(the plain `get` is the `.value` projection). -/
def BunSQLiteCache.get {α : Type} (G : Gzip) (C : Codec α) (s : CacheState) (key : String)
    (tNow : Nat) : Except CacheError (Option (ValueWithMeta α) × CacheState) :=
  if s.isClosed then .error .cacheClosed
  else
    match touchAndFetch s.table key tNow with
    | (none, t2) => .ok (none, { s with table := t2 })
    | (some (v, comp), t2) =>
      let bytes := if comp then G.gunzipSync v else v
      .ok (some ⟨C.deserialize bytes, key, comp⟩, { s with table := t2 })

/-- The compression decision inside `set` (src/index.ts lines 157-169), a pure
function of the requested flag and the serialized buffer: compress only when
requested, the buffer reaches `COMPRESSION_MIN_LENGTH`, and gzip strictly
shrinks it; returns the stored `compressed` flag and the stored bytes. -/
def compressionDecision (G : Gzip) (requested : Bool) (valueBuffer : List Nat) :
    Bool × List Nat :=
  if requested && decide (COMPRESSION_MIN_LENGTH ≤ valueBuffer.length) then
    let compressed := G.gzipSync valueBuffer
    if valueBuffer.length ≤ compressed.length then (false, valueBuffer)
    else (true, compressed)
  else (false, valueBuffer)

/-- What one call to `set` produced: its boolean return value, how many
`setImmediate(checkForExpiredItems)` sweep invocations it scheduled, and the
resulting cache state. -/
structure SetOutcome where
  success : Bool
  sweepsTriggered : Nat
  state : CacheState
deriving Repr

/-- `BunSQLiteCache.set` (src/index.ts lines 146-189): throws `CacheClosed` when
closed; computes `expires` from `opts.ttlMs ?? defaultTtlMs`, the requested
compression from `opts.compress ?? config.compress ?? false`, compresses only
when requested and the serialized length reaches `COMPRESSION_MIN_LENGTH` and
the compressed form is strictly smaller; schedules one sweep via `setImmediate`
(before the try block, hence on every non-closed call); the upsert runs in a
`try`/`catch` — on a store failure (`storeFail`) the error is logged and `set`
returns `false` with the table unchanged, otherwise it returns `true`. -/
def BunSQLiteCache.set {α : Type} (G : Gzip) (C : Codec α) (s : CacheState) (key : String)
    (value : α) (ttlMs : Option Nat) (compressOpt : Option Bool) (storeFail : Bool)
    (tNow : Nat) : Except CacheError SetOutcome :=
  if s.isClosed then .error .cacheClosed
  else
    let ttl := ttlMs.or s.config.defaultTtlMs
    let expires := ttl.map (fun tl => tNow + tl)
    let requested := (compressOpt.or s.config.compress).getD false
    let valueBuffer := C.serialize value
    let cv : Bool × List Nat := compressionDecision G requested valueBuffer
    if storeFail then .ok ⟨false, 1, s⟩
    else .ok ⟨true, 1, { s with table := upsert s.table key cv.2 expires tNow cv.1 }⟩

/-- `BunSQLiteCache.delete` (src/index.ts lines 197-202). -/
def BunSQLiteCache.delete (s : CacheState) (key : String) : Except CacheError CacheState :=
  if s.isClosed then .error .cacheClosed
  else .ok { s with table := deleteRow s.table key }

/-- `BunSQLiteCache.clear` (src/index.ts lines 208-213). -/
def BunSQLiteCache.clear (s : CacheState) : Except CacheError CacheState :=
  if s.isClosed then .error .cacheClosed
  else .ok { s with table := clearAll s.table }

/-- `BunSQLiteCache.close` (src/index.ts lines 218-222): clears the sweep timer,
closes the database and flips `isClosed` to true, unconditionally. -/
def BunSQLiteCache.close (s : CacheState) : CacheState :=
  { s with isClosed := true }

/-- `checkForExpiredItems` (src/index.ts lines 224-245): a no-op when closed;
otherwise deletes expired rows and, when `configuration.maxItems` is truthy
(present and nonzero), deletes the rows beyond the `maxItems` most recently
accessed; the whole body is wrapped in `try`/`catch`, so a store failure
(`storeFail`) is logged and the sweep returns normally. -/
def checkForExpiredItems (s : CacheState) (storeFail : Bool) (tNow : Nat) : CacheState :=
  if s.isClosed then s
  else if storeFail then s
  else
    let t1 := deleteExpired s.table tNow
    match s.config.maxItems with
    | some m => if m ≠ 0 then { s with table := deleteExcessByRecency t1 m }
                else { s with table := t1 }
    | none => { s with table := t1 }

/-- A trivial codec on `Nat`, used to instantiate the theorems at concrete inputs. -/
def natCodec : Codec Nat :=
  ⟨fun n => [n], fun l => l.headD 0, fun _ => rfl⟩

/-- The identity compressor: lossless, and never strictly smaller. -/
def idGzip : Gzip :=
  ⟨id, id, fun _ => rfl⟩

/-- A fully-defaulted configuration for concrete instances. -/
def cfg0 : Config := ⟨":memory:", none, none, none⟩

/-- An empty open cache. -/
def st0 : CacheState := ⟨cfg0, [], false⟩

/-- An empty closed cache. -/
def stClosed : CacheState := ⟨cfg0, [], true⟩

/-- A concrete row that expires at time 10. -/
def entry9 : CacheEntry := ⟨[7], some 10, 0, false⟩

/-- An open cache holding exactly `entry9` under key "k". -/
def st9 : CacheState := ⟨cfg0, [("k", entry9)], false⟩

theorem find?_filter_ne (t : Table) (k : String) :
    (t.filter (fun p => p.1 != k)).find? (fun p => p.1 == k) = none := by
  rw [List.find?_eq_none]
  intro p hp
  have h := List.of_mem_filter hp
  simp only [bne_iff_ne, ne_eq] at h
  simp [h]

theorem findRow_upsert_self (t : Table) (k : String) (v : List Nat) (exp : Option Nat)
    (tN : Nat) (comp : Bool) :
    findRow (upsert t k v exp tN comp) k = some ⟨v, exp, tN, comp⟩ := by
  unfold findRow upsert
  rw [List.find?_append, find?_filter_ne]
  simp

theorem mem_of_findRow {t : Table} {k : String} {e : CacheEntry}
    (h : findRow t k = some e) : (k, e) ∈ t := by
  unfold findRow at h
  cases hf : t.find? (fun p => p.1 == k) with
  | none => rw [hf] at h; exact absurd h (by simp)
  | some p =>
    rw [hf] at h
    have hm := List.mem_of_find?_eq_some hf
    have hp := List.find?_some hf
    obtain ⟨p1, p2⟩ := p
    have h1 : p1 = k := by simpa using hp
    have h2 : p2 = e := by simpa using h
    rw [h1, h2] at hm
    exact hm

theorem compressionDecision_flag (G : Gzip) (requested : Bool) (buf : List Nat) :
    (compressionDecision G requested buf).1 =
      (requested && decide (COMPRESSION_MIN_LENGTH ≤ buf.length)
        && decide ((G.gzipSync buf).length < buf.length)) := by
  unfold compressionDecision
  cases hb : (requested && decide (COMPRESSION_MIN_LENGTH ≤ buf.length)) with
  | false => simp [hb]
  | true =>
    simp only [hb, if_true]
    by_cases h2 : buf.length ≤ (G.gzipSync buf).length
    · simp [h2, Nat.not_lt.mpr h2]
    · simp [h2, Nat.lt_of_not_le h2]

theorem compressionDecision_bytes (G : Gzip) (requested : Bool) (buf : List Nat) :
    (compressionDecision G requested buf).2 =
      (if (compressionDecision G requested buf).1 = true then G.gzipSync buf else buf) := by
  unfold compressionDecision
  cases hb : (requested && decide (COMPRESSION_MIN_LENGTH ≤ buf.length)) with
  | false => simp [hb]
  | true =>
    simp only [hb, if_true]
    by_cases h2 : buf.length ≤ (G.gzipSync buf).length
    · simp [h2]
    · simp [h2]

theorem compressionDecision_recover (G : Gzip) (requested : Bool) (buf : List Nat) :
    (if (compressionDecision G requested buf).1 = true then
        G.gunzipSync (compressionDecision G requested buf).2
      else (compressionDecision G requested buf).2) = buf := by
  unfold compressionDecision
  cases hb : (requested && decide (COMPRESSION_MIN_LENGTH ≤ buf.length)) with
  | false => simp [hb]
  | true =>
    simp only [hb, if_true]
    by_cases h2 : buf.length ≤ (G.gzipSync buf).length
    · simp [h2]
    · simp [h2, G.roundtrip]

theorem set_ok_open {α : Type} (G : Gzip) (C : Codec α) (s : CacheState) (k : String)
    (v : α) (ttlMs : Option Nat) (compressOpt : Option Bool) (storeFail : Bool)
    (tNow : Nat) (hOpen : s.isClosed = false) :
    BunSQLiteCache.set G C s k v ttlMs compressOpt storeFail tNow =
      (if storeFail then Except.ok ⟨false, 1, s⟩
       else Except.ok ⟨true, 1, { s with table := (upsert s.table k
          (compressionDecision G ((compressOpt.or s.config.compress).getD false)
            (C.serialize v)).2
          ((ttlMs.or s.config.defaultTtlMs).map (fun tl => tNow + tl)) tNow
          (compressionDecision G ((compressOpt.or s.config.compress).getD false)
            (C.serialize v)).1) }⟩) := by
  simp [BunSQLiteCache.set, hOpen]

theorem get_found {α : Type} (G : Gzip) (C : Codec α) (s : CacheState) (k : String)
    (e : CacheEntry) (t2 : Nat) (hOpen : s.isClosed = false)
    (hf : findRow s.table k = some e) (hl : liveAt e t2 = true) :
    BunSQLiteCache.get G C s k t2 = .ok
      (some ⟨C.deserialize (if e.compressed then G.gunzipSync e.value else e.value), k,
          e.compressed⟩,
        { s with table := touchRow s.table k t2 }) := by
  simp [BunSQLiteCache.get, touchAndFetch, hOpen, hf, hl]

theorem get_missed {α : Type} (G : Gzip) (C : Codec α) (s : CacheState) (k : String)
    (t2 : Nat) (hOpen : s.isClosed = false)
    (h : ∀ e, findRow s.table k = some e → liveAt e t2 = false) :
    BunSQLiteCache.get G C s k t2 = .ok (none, s) := by
  cases hf : findRow s.table k with
  | none =>
    simp only [BunSQLiteCache.get, hOpen, Bool.false_eq_true, if_false, touchAndFetch, hf]
    rw [← hOpen]
  | some e =>
    simp only [BunSQLiteCache.get, hOpen, Bool.false_eq_true, if_false, touchAndFetch, hf,
      h e hf]
    rw [← hOpen]

/-- The behaviour of `get` on an open cache at one evaluation time: a value is
returned iff a row with that key exists and is live; on a hit the row's
`lastAccess` is touched in the same atomic statement and the returned value is the
stored bytes, decompressed exactly when the stored flag is set, then deserialized;
on a miss the result is `none` (not an error) and the table is untouched. -/
def getContract {α : Type} (G : Gzip) (C : Codec α) (s : CacheState) (k : String)
    (tNow : Nat) : Prop :=
  ((∃ w s2, BunSQLiteCache.get G C s k tNow = .ok (some w, s2)) ↔
    ∃ e, findRow s.table k = some e ∧ liveAt e tNow = true) ∧
  (∀ w s2, BunSQLiteCache.get G C s k tNow = .ok (some w, s2) →
    s2 = { s with table := touchRow s.table k tNow } ∧
    ∃ e, findRow s.table k = some e ∧ liveAt e tNow = true ∧
      w = ⟨C.deserialize (if e.compressed then G.gunzipSync e.value else e.value), k,
        e.compressed⟩) ∧
  ((∀ e, findRow s.table k = some e → liveAt e tNow = false) →
    BunSQLiteCache.get G C s k tNow = .ok (none, s))

/-- Claim C3: for every `get(key)` on an Open cache evaluated at time `t`, the
deserialized value is returned iff an entry with that key exists whose `expires`
is absent or strictly greater than `t`; in that case `lastAccess` is set to `t` in
the same atomic touch-and-fetch; otherwise `get` returns absent (not an error) and
leaves storage untouched, so an expired-but-not-yet-swept row is never returned
nor touched. -/
theorem get_touch_and_fetch_spec {α : Type} (G : Gzip) (C : Codec α) (s : CacheState)
    (k : String) (tNow : Nat) (hOpen : s.isClosed = false) :
    getContract G C s k tNow := by
  refine ⟨⟨?_, ?_⟩, ?_, fun h => get_missed G C s k tNow hOpen h⟩
  · rintro ⟨w, s2, hw⟩
    cases hf : findRow s.table k with
    | none =>
      rw [get_missed G C s k tNow hOpen
        (fun e he => absurd (hf ▸ he) (by simp))] at hw
      simp at hw
    | some e =>
      cases hl : liveAt e tNow with
      | false =>
        rw [get_missed G C s k tNow hOpen
          (fun e2 he2 => by rw [hf] at he2; cases he2; exact hl)] at hw
        simp at hw
      | true => exact ⟨e, rfl, hl⟩
  · rintro ⟨e, he, hl⟩
    exact ⟨_, _, get_found G C s k e tNow hOpen he hl⟩
  · intro w s2 hw
    cases hf : findRow s.table k with
    | none =>
      rw [get_missed G C s k tNow hOpen
        (fun e he => absurd (hf ▸ he) (by simp))] at hw
      simp at hw
    | some e =>
      cases hl : liveAt e tNow with
      | false =>
        rw [get_missed G C s k tNow hOpen
          (fun e2 he2 => by rw [hf] at he2; cases he2; exact hl)] at hw
        simp at hw
      | true =>
        rw [get_found G C s k e tNow hOpen hf hl] at hw
        simp only [Except.ok.injEq, Prod.mk.injEq, Option.some.injEq] at hw
        exact ⟨hw.2.symm, e, rfl, hl, hw.1.symm⟩

/-- Witness for the C3 theorem at a concrete open cache. -/
theorem get_touch_and_fetch_spec_witness : getContract idGzip natCodec st0 "a" 0 :=
  get_touch_and_fetch_spec idGzip natCodec st0 "a" 0 rfl

/-- Claim C1: round-trip — on an Open cache, `set(k, v)` followed by `get(k)`
(at any time before the entry expires, and before any eviction of `k`) returns a
value equal to `v`, for every codec/compressor pair satisfying the inverse laws;
this covers the compressed path, since the stored `compressed` flag drives
unconditional decompression before deserialization on read. -/
theorem set_get_roundtrip {α : Type} (G : Gzip) (C : Codec α) (s : CacheState)
    (k : String) (v : α) (ttlMs : Option Nat) (compressOpt : Option Bool)
    (tNow t2 : Nat) (hOpen : s.isClosed = false)
    (hLive : ∀ tl, ttlMs.or s.config.defaultTtlMs = some tl → t2 < tNow + tl) :
    ∃ out, BunSQLiteCache.set G C s k v ttlMs compressOpt false tNow = .ok out ∧
      ∃ w s2, BunSQLiteCache.get G C out.state k t2 = .ok (some w, s2) ∧ w.value = v := by
  rw [set_ok_open G C s k v ttlMs compressOpt false tNow hOpen]
  simp only [Bool.false_eq_true, if_false]
  refine ⟨_, rfl, ?_⟩
  have hf := findRow_upsert_self s.table k
    (compressionDecision G ((compressOpt.or s.config.compress).getD false)
      (C.serialize v)).2
    ((ttlMs.or s.config.defaultTtlMs).map (fun tl => tNow + tl)) tNow
    (compressionDecision G ((compressOpt.or s.config.compress).getD false)
      (C.serialize v)).1
  have hl : liveAt
      ⟨(compressionDecision G ((compressOpt.or s.config.compress).getD false)
          (C.serialize v)).2,
        ((ttlMs.or s.config.defaultTtlMs).map (fun tl => tNow + tl)), tNow,
        (compressionDecision G ((compressOpt.or s.config.compress).getD false)
          (C.serialize v)).1⟩ t2 = true := by
    unfold liveAt
    cases ho : ttlMs.or s.config.defaultTtlMs with
    | none => simp
    | some tl => simp [hLive tl ho]
  have hg := get_found G C
    { s with table := (upsert s.table k
      (compressionDecision G ((compressOpt.or s.config.compress).getD false)
        (C.serialize v)).2
      ((ttlMs.or s.config.defaultTtlMs).map (fun tl => tNow + tl)) tNow
      (compressionDecision G ((compressOpt.or s.config.compress).getD false)
        (C.serialize v)).1) } k _ t2 hOpen hf hl
  refine ⟨_, _, hg, ?_⟩
  show C.deserialize
      (if (compressionDecision G ((compressOpt.or s.config.compress).getD false)
            (C.serialize v)).1 = true then
        G.gunzipSync (compressionDecision G
          ((compressOpt.or s.config.compress).getD false) (C.serialize v)).2
      else (compressionDecision G ((compressOpt.or s.config.compress).getD false)
        (C.serialize v)).2) = v
  rw [compressionDecision_recover, C.roundtrip]

/-- Witness for the C1 theorem: set 5 under key "a" on an empty open cache and read
it back at the same instant. -/
theorem set_get_roundtrip_witness :
    ∃ out, BunSQLiteCache.set idGzip natCodec st0 "a" 5 none none false 0 = .ok out ∧
      ∃ w s2, BunSQLiteCache.get idGzip natCodec out.state "a" 0 = .ok (some w, s2) ∧
        w.value = 5 :=
  set_get_roundtrip idGzip natCodec st0 "a" 5 none none 0 0 rfl (fun _ h => nomatch h)

/-- The closed-state contract: every operation except `close` fails with
`CacheClosed` on the closed instance, `close` leaves it closed, and a sweep tick
on it is a no-op; together with the error results this makes Closed terminal. -/
def closedContract {α : Type} (G : Gzip) (C : Codec α) (s : CacheState) (k : String)
    (v : α) (ttlMs : Option Nat) (compressOpt : Option Bool) (storeFail : Bool)
    (tNow : Nat) : Prop :=
  s.isClosed = true ∧
  BunSQLiteCache.get G C s k tNow = .error .cacheClosed ∧
  BunSQLiteCache.set G C s k v ttlMs compressOpt storeFail tNow = .error .cacheClosed ∧
  BunSQLiteCache.delete s k = .error .cacheClosed ∧
  BunSQLiteCache.clear s = .error .cacheClosed ∧
  (BunSQLiteCache.close s).isClosed = true ∧
  checkForExpiredItems s storeFail tNow = s

/-- Claim C5: after `close()` has been called on any instance, `isClosed` reads
true and every subsequent `get`, `set`, `delete`, `clear` fails with `CacheClosed`
(`close` itself and reading `isClosed` remain allowed); the Closed state is
terminal — closing again keeps it closed and a sweep tick leaves it unchanged, so
no operation returns the instance to Open. -/
theorem closed_cache_contract {α : Type} (G : Gzip) (C : Codec α) (s0 : CacheState)
    (k : String) (v : α) (ttlMs : Option Nat) (compressOpt : Option Bool)
    (storeFail : Bool) (tNow : Nat) :
    closedContract G C (BunSQLiteCache.close s0) k v ttlMs compressOpt storeFail tNow := by
  refine ⟨rfl, ?_, ?_, ?_, ?_, rfl, ?_⟩ <;>
    simp [BunSQLiteCache.get, BunSQLiteCache.set, BunSQLiteCache.delete,
      BunSQLiteCache.clear, BunSQLiteCache.close, checkForExpiredItems]

/-- Claim C6: `set` on an Open cache never raises on a storage-layer failure: when
the upsert throws, the exception is caught (a diagnostic goes to the error channel)
and `set` returns `false`; when the upsert succeeds, `set` returns `true`. -/
theorem set_best_effort {α : Type} (G : Gzip) (C : Codec α) (s : CacheState)
    (k : String) (v : α) (ttlMs : Option Nat) (compressOpt : Option Bool)
    (storeFail : Bool) (tNow : Nat) (hOpen : s.isClosed = false) :
    ∃ out, BunSQLiteCache.set G C s k v ttlMs compressOpt storeFail tNow = .ok out ∧
      out.success = ! storeFail := by
  rw [set_ok_open G C s k v ttlMs compressOpt storeFail tNow hOpen]
  cases storeFail
  · exact ⟨_, rfl, rfl⟩
  · exact ⟨_, rfl, rfl⟩

/-- Witness for the C6 theorem: a failing upsert on a concrete open cache yields
`.ok` with `success = false`. -/
theorem set_best_effort_witness :
    ∃ out, BunSQLiteCache.set idGzip natCodec st0 "a" 5 none none true 0 = .ok out ∧
      out.success = ! true :=
  set_best_effort idGzip natCodec st0 "a" 5 none none true 0 rfl

/-- Claim C10: when the Store upsert inside `set` throws, that `set` leaves the
cache contents unchanged: the resulting state equals the pre-call state, every key
(including the one being written) still maps to its previous row — value, expiry,
lastAccess and compressed flag intact — and a subsequent `get` observes exactly
the pre-failure state. -/
theorem set_failure_preserves_state {α : Type} (G : Gzip) (C : Codec α)
    (s : CacheState) (k : String) (v : α) (ttlMs : Option Nat)
    (compressOpt : Option Bool) (tNow : Nat) (hOpen : s.isClosed = false) :
    ∃ out, BunSQLiteCache.set G C s k v ttlMs compressOpt true tNow = .ok out ∧
      out.success = false ∧ out.state = s ∧
      (∀ k2, findRow out.state.table k2 = findRow s.table k2) ∧
      (∀ k2 t2, BunSQLiteCache.get G C out.state k2 t2 =
        BunSQLiteCache.get G C s k2 t2) := by
  rw [set_ok_open G C s k v ttlMs compressOpt true tNow hOpen]
  exact ⟨_, rfl, rfl, rfl, fun _ => rfl, fun _ _ => rfl⟩

/-- Witness for the C10 theorem on a concrete single-row cache. -/
theorem set_failure_preserves_state_witness :
    ∃ out, BunSQLiteCache.set idGzip natCodec st9 "k" 5 none none true 3 = .ok out ∧
      out.success = false ∧ out.state = st9 ∧
      (∀ k2, findRow out.state.table k2 = findRow st9.table k2) ∧
      (∀ k2 t2, BunSQLiteCache.get idGzip natCodec out.state k2 t2 =
        BunSQLiteCache.get idGzip natCodec st9 k2 t2) :=
  set_failure_preserves_state idGzip natCodec st9 "k" 5 none none 3 rfl

/-- Counterexample to claim C8 as stated: a `set` whose upsert fails — it returns
`false` — still schedules one sweep invocation, because `setImmediate` is called
before the `try` block; the trigger is not conditional on a successful write. -/
theorem set_sweep_on_failed_set_cex :
    BunSQLiteCache.set idGzip natCodec st0 "a" 5 none none true 0 =
      .ok ⟨false, 1, st0⟩ := rfl

/-- Claim C8 (amended): every `set` call that passes the closed-state check
schedules exactly one additional fire-and-forget sweep invocation (via
`setImmediate`, issued before the write is attempted and hence regardless of
whether the upsert succeeds or fails), in addition to the periodic schedule; a
call on a closed cache throws first and schedules none. -/
theorem set_schedules_one_sweep {α : Type} (G : Gzip) (C : Codec α) (s : CacheState)
    (k : String) (v : α) (ttlMs : Option Nat) (compressOpt : Option Bool)
    (storeFail : Bool) (tNow : Nat) (hOpen : s.isClosed = false) :
    ∃ out, BunSQLiteCache.set G C s k v ttlMs compressOpt storeFail tNow = .ok out ∧
      out.sweepsTriggered = 1 := by
  rw [set_ok_open G C s k v ttlMs compressOpt storeFail tNow hOpen]
  cases storeFail
  · exact ⟨_, rfl, rfl⟩
  · exact ⟨_, rfl, rfl⟩

/-- Witness for the amended C8 theorem: a concrete successful `set` schedules
exactly one sweep. -/
theorem set_schedules_one_sweep_witness :
    ∃ out, BunSQLiteCache.set idGzip natCodec st0 "a" 5 none none false 0 = .ok out ∧
      out.sweepsTriggered = 1 :=
  set_schedules_one_sweep idGzip natCodec st0 "a" 5 none none false 0 rfl

/-- Claim C9: an entry whose `expires` equals the current time `t` is in limbo at
`t`: `get` at `t` returns absent (the read filter requires `expires` strictly
greater than now) and leaves the table untouched, yet the sweep's expiration step
at the same time `t` keeps the row (deletion requires `expires` strictly below
now); the row is removed by the expiration step exactly once the clock moves
strictly past `expires`. -/
theorem expiry_boundary_limbo {α : Type} (G : Gzip) (C : Codec α) (s : CacheState)
    (k : String) (e : CacheEntry) (texp : Nat) (hOpen : s.isClosed = false)
    (hfind : findRow s.table k = some e) (hexp : e.expires = some texp) :
    BunSQLiteCache.get G C s k texp = .ok (none, s) ∧
    (k, e) ∈ deleteExpired s.table texp ∧
    (∀ t2, (k, e) ∈ deleteExpired s.table t2 ↔ ¬ texp < t2) := by
  have hm := mem_of_findRow hfind
  refine ⟨?_, ?_, ?_⟩
  · apply get_missed G C s k texp hOpen
    intro e2 he2
    rw [hfind] at he2
    cases he2
    simp [liveAt, hexp]
  · rw [deleteExpired, List.mem_filter]
    exact ⟨hm, by simp [expiredAt, hexp]⟩
  · intro t2
    rw [deleteExpired, List.mem_filter]
    constructor
    · rintro ⟨-, hp⟩
      simpa [expiredAt, hexp] using hp
    · intro hlt
      exact ⟨hm, by simpa [expiredAt, hexp] using hlt⟩

/-- Witness for the C9 theorem: a concrete row expiring exactly at time 10. -/
theorem expiry_boundary_limbo_witness :
    BunSQLiteCache.get idGzip natCodec st9 "k" 10 = .ok (none, st9) ∧
    ("k", entry9) ∈ deleteExpired st9.table 10 ∧
    (∀ t2, ("k", entry9) ∈ deleteExpired st9.table t2 ↔ ¬ (10 : Nat) < t2) :=
  expiry_boundary_limbo idGzip natCodec st9 "k" entry9 10 rfl rfl rfl

/-- The compression contract of one successful `set` call: the stored flag is set
exactly when compression was requested (per-call option, else the configuration
default, else false), the serialized length reaches `COMPRESSION_MIN_LENGTH`, and
gzip strictly shrinks the buffer (equal size counts as rejection); the stored
bytes are the compressed form exactly when the flag is set and the original
serialized bytes otherwise; and a later metadata read reports exactly the stored
flag. -/
def compressionContract {α : Type} (G : Gzip) (C : Codec α) (s : CacheState)
    (k : String) (v : α) (ttlMs : Option Nat) (compressOpt : Option Bool)
    (tNow : Nat) : Prop :=
  ∃ out, BunSQLiteCache.set G C s k v ttlMs compressOpt false tNow = .ok out ∧
    ∃ e, findRow out.state.table k = some e ∧
      e.compressed = ((compressOpt.or s.config.compress).getD false
          && decide (COMPRESSION_MIN_LENGTH ≤ (C.serialize v).length)
          && decide ((G.gzipSync (C.serialize v)).length < (C.serialize v).length)) ∧
      e.value = (if e.compressed then G.gzipSync (C.serialize v) else C.serialize v) ∧
      (∀ t2, liveAt e t2 = true →
        ∃ w s2, BunSQLiteCache.get G C out.state k t2 = .ok (some w, s2) ∧
          w.compressed = e.compressed)

/-- Claim C2: for every `set` on an Open cache with requested-compress flag `c`
(per-call option falling back to the configuration default, then false) and
serialized byte length `n`: the entry is stored compressed with `compressed=true`
exactly when `c` is true, `n ≥ 1024`, and the gzip form is strictly smaller than
`n`; in every other case (including equal size) the original bytes are stored with
`compressed=false`; and `get` with metadata reports exactly the stored flag. -/
theorem set_compression_policy {α : Type} (G : Gzip) (C : Codec α) (s : CacheState)
    (k : String) (v : α) (ttlMs : Option Nat) (compressOpt : Option Bool)
    (tNow : Nat) (hOpen : s.isClosed = false) :
    compressionContract G C s k v ttlMs compressOpt tNow := by
  unfold compressionContract
  rw [set_ok_open G C s k v ttlMs compressOpt false tNow hOpen]
  simp only [Bool.false_eq_true, if_false]
  refine ⟨_, rfl, ?_⟩
  refine ⟨_, findRow_upsert_self _ _ _ _ _ _, ?_, ?_, ?_⟩
  · exact compressionDecision_flag G _ _
  · exact compressionDecision_bytes G _ _
  · intro t2 hl
    refine ⟨_, _, get_found G C _ k _ t2 hOpen (findRow_upsert_self _ _ _ _ _ _) hl, rfl⟩

/-- Witness for the C2 theorem on a concrete open cache. -/
theorem set_compression_policy_witness :
    compressionContract idGzip natCodec st0 "a" 5 none none 0 :=
  set_compression_policy idGzip natCodec st0 "a" 5 none none 0 rfl

/-- A truthy field of the wrong `typeof`, the only situation `parseConfig` flags. -/
theorem bad_field_iff (o : Option JSVal) (ty : JSVal → Bool) :
    o.any (fun v => v.truthy && ! ty v) = true ↔
      ∃ v, o = some v ∧ v.truthy = true ∧ ty v = false := by
  cases o with
  | none => simp [Option.any]
  | some v => simp [Option.any, Bool.and_eq_true, Bool.not_eq_true']

/-- The quoted names of the offending configuration fields, in declaration order. -/
def offendingFields (c : RawConfig) : List String :=
  (List.filter (fun q => q.2)
    [("\x27database\x27", c.database.any (fun v => v.truthy && ! v.isString)),
     ("\x27defaultTtlMs\x27", c.defaultTtlMs.any (fun v => v.truthy && ! v.isNumber)),
     ("\x27maxItems\x27", c.maxItems.any (fun v => v.truthy && ! v.isNumber)),
     ("\x27compress\x27", c.compress.any (fun v => v.truthy && ! v.isBool))]).map Prod.fst

theorem offendingFields_eq (c : RawConfig) :
    offendingFields c =
      (if c.database.any (fun v => v.truthy && ! v.isString)
        then ["\x27database\x27"] else []) ++
      (if c.defaultTtlMs.any (fun v => v.truthy && ! v.isNumber)
        then ["\x27defaultTtlMs\x27"] else []) ++
      (if c.maxItems.any (fun v => v.truthy && ! v.isNumber)
        then ["\x27maxItems\x27"] else []) ++
      (if c.compress.any (fun v => v.truthy && ! v.isBool)
        then ["\x27compress\x27"] else []) := by
  unfold offendingFields
  cases h1 : c.database.any (fun v => v.truthy && ! v.isString) <;>
  cases h2 : c.defaultTtlMs.any (fun v => v.truthy && ! v.isNumber) <;>
  cases h3 : c.maxItems.any (fun v => v.truthy && ! v.isNumber) <;>
  cases h4 : c.compress.any (fun v => v.truthy && ! v.isBool) <;>
    simp [h1, h2, h3, h4]

theorem parseConfig_eq (c : RawConfig) :
    parseConfig c =
      (if (offendingFields c).length > 0 then
        .error (.invalidConfig
          ("Invalid " ++ String.intercalate "," (offendingFields c) ++ " configuration"))
      else .ok { c with database := some (c.database.getD (.vStr ":memory:")) }) := by
  rw [offendingFields_eq]
  rfl

theorem offendingFields_pos_iff (c : RawConfig) :
    (offendingFields c).length > 0 ↔
      ((∃ v, c.database = some v ∧ v.truthy = true ∧ v.isString = false) ∨
       (∃ v, c.defaultTtlMs = some v ∧ v.truthy = true ∧ v.isNumber = false) ∨
       (∃ v, c.maxItems = some v ∧ v.truthy = true ∧ v.isNumber = false) ∨
       (∃ v, c.compress = some v ∧ v.truthy = true ∧ v.isBool = false)) := by
  rw [offendingFields_eq]
  simp only [← bad_field_iff]
  cases h1 : c.database.any (fun v => v.truthy && ! v.isString) <;>
  cases h2 : c.defaultTtlMs.any (fun v => v.truthy && ! v.isNumber) <;>
  cases h3 : c.maxItems.any (fun v => v.truthy && ! v.isNumber) <;>
  cases h4 : c.compress.any (fun v => v.truthy && ! v.isBool) <;>
    simp

/-- The amended validation contract: construction fails with a single
`InvalidConfiguration` error exactly when some field is present, truthy, and of
the wrong `typeof` (positivity of `maxItems` is never checked); the error message
names every offending field, comma-joined, in declaration order; otherwise
construction succeeds with `database` defaulted to ":memory:" and the other
fields passed through; and a numeric `maxItems` — positive or not — never counts
as offending. -/
def parseConfigContract (c : RawConfig) : Prop :=
  ((∃ m, parseConfig c = .error (.invalidConfig m)) ↔
    ((∃ v, c.database = some v ∧ v.truthy = true ∧ v.isString = false) ∨
     (∃ v, c.defaultTtlMs = some v ∧ v.truthy = true ∧ v.isNumber = false) ∨
     (∃ v, c.maxItems = some v ∧ v.truthy = true ∧ v.isNumber = false) ∨
     (∃ v, c.compress = some v ∧ v.truthy = true ∧ v.isBool = false))) ∧
  (offendingFields c ≠ [] →
    parseConfig c = .error (.invalidConfig
      ("Invalid " ++ String.intercalate "," (offendingFields c) ++ " configuration"))) ∧
  (offendingFields c = [] →
    parseConfig c = .ok { c with database := some (c.database.getD (.vStr ":memory:")) }) ∧
  (∀ n : Int, c.maxItems = some (.vNum n) →
    "\x27maxItems\x27" ∉ offendingFields c)

/-- Counterexample to claim C4 as stated: `maxItems = -1` is present and is not a
positive number, yet construction succeeds — `parseConfig` only checks
`typeof maxItems === "number"` (behind a truthiness guard) and never checks the
sign or range. -/
theorem parseConfig_negative_maxItems_cex :
    parseConfig ⟨none, none, some (.vNum (-1)), none⟩ =
      .ok ⟨some (.vStr ":memory:"), none, some (.vNum (-1)), none⟩ ∧
    ¬ (0 : Int) < -1 :=
  ⟨rfl, by decide⟩

/-- Claim C4 (amended): the four fields are checked independently, each only when
truthy and only for its `typeof` (`maxItems` must be a number; positivity is not
checked); when several are invalid the single `InvalidConfiguration` error names
every offending field, comma-joined; when none is invalid construction succeeds
with `database` defaulted to ":memory:" and the remaining fields passed through. -/
theorem parseConfig_validation (c : RawConfig) : parseConfigContract c := by
  refine ⟨?_, ?_, ?_, ?_⟩
  · rw [← offendingFields_pos_iff]
    constructor
    · rintro ⟨m, hm⟩
      by_contra hc
      rw [parseConfig_eq, if_neg hc] at hm
      exact Except.noConfusion hm
    · intro hc
      exact ⟨_, by rw [parseConfig_eq, if_pos hc]⟩
  · intro hne
    rw [parseConfig_eq, if_pos (List.length_pos.mpr hne)]
  · intro he
    rw [parseConfig_eq, if_neg (by simp [he])]
  · intro n h
    rw [offendingFields_eq]
    have h3 : c.maxItems.any (fun v => v.truthy && ! v.isNumber) = false := by
      rw [h]
      simp [Option.any, JSVal.isNumber]
    rw [h3]
    cases h1 : c.database.any (fun v => v.truthy && ! v.isString) <;>
    cases h2 : c.defaultTtlMs.any (fun v => v.truthy && ! v.isNumber) <;>
    cases h4 : c.compress.any (fun v => v.truthy && ! v.isBool) <;>
      simp

theorem sortByRecency_perm (t : Table) : (sortByRecency t).Perm t :=
  List.perm_insertionSort moreRecent t

theorem sortByRecency_sorted (t : Table) : List.Sorted moreRecent (sortByRecency t) :=
  List.sorted_insertionSort moreRecent t

/-- Under unique keys, a key appears among the dropped (beyond-capacity) keys
exactly when its row lies in the dropped suffix of the recency-sorted table. -/
theorem mem_drop_iff_key {t : Table} (hN : (t.map Prod.fst).Nodup) (m : Nat)
    {p : String × CacheEntry} (hp : p ∈ t) :
    (((sortByRecency t).drop m).map Prod.fst).contains p.1 = true ↔
      p ∈ (sortByRecency t).drop m := by
  have hperm := sortByRecency_perm t
  have hNs : ((sortByRecency t).map Prod.fst).Nodup :=
    (hperm.map Prod.fst).nodup_iff.mpr hN
  constructor
  · intro hc
    have hc2 : p.1 ∈ ((sortByRecency t).drop m).map Prod.fst := List.elem_iff.mp hc
    obtain ⟨q, hq, hqk⟩ := List.mem_map.mp hc2
    have hqs : q ∈ sortByRecency t := List.drop_subset _ _ hq
    have hps : p ∈ sortByRecency t := hperm.mem_iff.mpr hp
    have heq : q = p := List.inj_on_of_nodup_map hNs hqs hps hqk
    rwa [← heq]
  · intro hmem
    exact List.elem_iff.mpr (List.mem_map_of_mem Prod.fst hmem)

/-- The kept rows of the LRU delete are a permutation of the first `maxItems` rows
of the recency-sorted table (keys assumed unique, as the PRIMARY KEY guarantees). -/
theorem deleteExcess_perm (t : Table) (m : Nat) (hN : (t.map Prod.fst).Nodup) :
    (deleteExcessByRecency t m).Perm ((sortByRecency t).take m) := by
  have hperm := sortByRecency_perm t
  have hNs : ((sortByRecency t).map Prod.fst).Nodup :=
    (hperm.map Prod.fst).nodup_iff.mpr hN
  have hsNodup : (sortByRecency t).Nodup := List.Nodup.of_map Prod.fst hNs
  obtain ⟨q, hqdef⟩ : ∃ q, q = fun p : String × CacheEntry =>
      ! (((sortByRecency t).drop m).map Prod.fst).contains p.1 := ⟨_, rfl⟩
  have hshow : deleteExcessByRecency t m = t.filter q := by
    rw [hqdef]
    rfl
  have h1 : (t.filter q).Perm ((sortByRecency t).filter q) := (hperm.filter q).symm
  have htake : ((sortByRecency t).take m).filter q = (sortByRecency t).take m := by
    apply List.filter_eq_self.mpr
    intro p hp
    have hps : p ∈ sortByRecency t := List.take_subset _ _ hp
    have hpt : p ∈ t := hperm.mem_iff.mp hps
    rw [hqdef]
    cases hcc : (((sortByRecency t).drop m).map Prod.fst).contains p.1 with
    | false => simp only [hcc, Bool.not_false]
    | true =>
      exfalso
      have hpd : p ∈ (sortByRecency t).drop m := (mem_drop_iff_key hN m hpt).mp hcc
      exact List.disjoint_take_drop hsNodup (le_refl m) hp hpd
  have hdrop : ((sortByRecency t).drop m).filter q = [] := by
    apply List.filter_eq_nil_iff.mpr
    intro p hp
    have hps : p ∈ sortByRecency t := List.drop_subset _ _ hp
    have hpt : p ∈ t := hperm.mem_iff.mp hps
    have hcc := (mem_drop_iff_key hN m hpt).mpr hp
    rw [hqdef]
    intro hcon
    simp only [hcc, Bool.not_true] at hcon
    exact Bool.false_ne_true hcon
  have h2 : (sortByRecency t).filter q = (sortByRecency t).take m := by
    conv_lhs => rw [← List.take_append_drop m (sortByRecency t)]
    rw [List.filter_append, htake, hdrop, List.append_nil]
  rw [hshow, ← h2]
  exact h1

theorem deleteExcess_subset (t : Table) (m : Nat) :
    ∀ p ∈ deleteExcessByRecency t m, p ∈ t := by
  intro p hp
  exact List.mem_of_mem_filter hp

theorem deleteExcess_length (t : Table) (m : Nat) (hN : (t.map Prod.fst).Nodup) :
    (deleteExcessByRecency t m).length = min m t.length := by
  rw [(deleteExcess_perm t m hN).length_eq, List.length_take,
    (sortByRecency_perm t).length_eq]

/-- Pure-LRU optimality of the capacity delete: every row it removes was accessed
no later than every row it keeps. -/
theorem deleteExcess_lru (t : Table) (m : Nat) (hN : (t.map Prod.fst).Nodup)
    (p : String × CacheEntry) (hp : p ∈ t) (hpn : p ∉ deleteExcessByRecency t m)
    (q : String × CacheEntry) (hq : q ∈ deleteExcessByRecency t m) :
    p.2.lastAccess ≤ q.2.lastAccess := by
  have hq2 : q ∈ (sortByRecency t).take m := (deleteExcess_perm t m hN).mem_iff.mp hq
  have hp2 : p ∈ (sortByRecency t).drop m := by
    cases hcc : (((sortByRecency t).drop m).map Prod.fst).contains p.1 with
    | true => exact (mem_drop_iff_key hN m hp).mp hcc
    | false =>
      exfalso
      exact hpn (List.mem_filter.mpr ⟨hp, by simp only [hcc, Bool.not_false]⟩)
  have hsorted := sortByRecency_sorted t
  rw [← List.take_append_drop m (sortByRecency t)] at hsorted
  exact (List.pairwise_append.mp hsorted).2.2 q hq2 p hp2

/-- The sweep contract: a failing tick is caught and changes nothing; the
expiration step removes exactly the rows with a non-null `expires` strictly below
now; with no capacity bound that is all; with a capacity bound `m` (nonzero, since
the code tests truthiness) the surviving rows are unexpired rows of the original
table, exactly `min m` (number of unexpired rows) many, and every evicted
unexpired row was accessed no later than every survivor — pure LRU on
`lastAccess`. -/
def sweepContract (s : CacheState) (tNow : Nat) : Prop :=
  (checkForExpiredItems s true tNow = s) ∧
  (∀ p ∈ s.table, p ∈ deleteExpired s.table tNow ↔ expiredAt p.2 tNow = false) ∧
  (s.config.maxItems = none →
    (checkForExpiredItems s false tNow).table = deleteExpired s.table tNow) ∧
  (∀ m, s.config.maxItems = some m → m ≠ 0 →
    (∀ p ∈ (checkForExpiredItems s false tNow).table,
      p ∈ s.table ∧ expiredAt p.2 tNow = false) ∧
    ((checkForExpiredItems s false tNow).table.length =
      min m (deleteExpired s.table tNow).length) ∧
    (∀ p ∈ deleteExpired s.table tNow,
      p ∉ (checkForExpiredItems s false tNow).table →
      ∀ q ∈ (checkForExpiredItems s false tNow).table,
        p.2.lastAccess ≤ q.2.lastAccess))

/-- Claim C7: every sweep on an Open cache first deletes exactly the entries whose
`expires` is non-null and strictly below now, then, when a capacity bound is
configured, keeps only the `maxItems` most-recently-accessed remaining entries
(ranked by `lastAccess` alone — pure LRU); a Store error during the sweep is
caught (and logged), never propagated to the caller. -/
theorem sweep_spec (s : CacheState) (tNow : Nat) (hOpen : s.isClosed = false)
    (hN : (s.table.map Prod.fst).Nodup) : sweepContract s tNow := by
  have hNe : ((deleteExpired s.table tNow).map Prod.fst).Nodup :=
    ((List.filter_sublist s.table).map Prod.fst).nodup hN
  refine ⟨?_, ?_, ?_, ?_⟩
  · simp [checkForExpiredItems, hOpen]
  · intro p hp
    rw [deleteExpired, List.mem_filter]
    constructor
    · rintro ⟨-, h⟩
      simpa using h
    · intro h
      exact ⟨hp, by simp [h]⟩
  · intro hmax
    simp [checkForExpiredItems, hOpen, hmax]
  · intro m hmax hm
    have hck : (checkForExpiredItems s false tNow).table =
        deleteExcessByRecency (deleteExpired s.table tNow) m := by
      simp [checkForExpiredItems, hOpen, hmax, hm]
    rw [hck]
    refine ⟨?_, deleteExcess_length _ m hNe,
      fun p hp hpn q hq => deleteExcess_lru _ m hNe p hp hpn q hq⟩
    intro p hp
    have hp1 := deleteExcess_subset _ m p hp
    have hp2 : p ∈ s.table := List.mem_of_mem_filter hp1
    have hp3 := List.of_mem_filter hp1
    exact ⟨hp2, by simpa using hp3⟩

/-- A configuration with a capacity bound of one item. -/
def cfg7 : Config := ⟨":memory:", none, some 1, none⟩

/-- A three-row open cache over `cfg7`: one row already expired at time 4, two
live rows with distinct `lastAccess`. -/
def st7 : CacheState :=
  ⟨cfg7, [("a", ⟨[1], none, 5, false⟩), ("b", ⟨[2], some 3, 9, false⟩),
    ("c", ⟨[3], none, 9, false⟩)], false⟩

/-- Witness for the C7 theorem at a concrete bounded cache. -/
theorem sweep_spec_witness : sweepContract st7 4 :=
  sweep_spec st7 4 rfl (by decide)

end BunSqliteCacheModel
